import Mathlib

/-!
Verification of the provider-configuration editor in
`src/components/ProviderManager.tsx`.

The component holds a form state `providers : Provider[]`, validated by the
zod schemas `ModelSchema`, `ProviderSchema`, `ProvidersListSchema` and
`FormSchema`.  Submission (`form.handleSubmit(onSubmit)`) validates the whole
state and, on success, serializes `data.providers` with `JSON.stringify`.
Import (`handleImport`) first rejects blank input (`!importJson.trim()`), then
parses with `JSON.parse` (syntax failure is caught and reported as a format
error), then validates with `ProvidersListSchema.safeParse`, and only on
success replaces the form state wholesale (`form.reset`).

This file embeds that data model and those operations and proves the stated
properties about them.
-/

namespace ProviderManager

/-- One model entry, the value type of `ModelSchema` in the source. -/
structure Model where
  apiName : String
  uiName : String
  supportsTools : Bool
deriving DecidableEq, Repr

/-- One provider entry, the value type of `ProviderSchema` in the source.
`baseUrl` is `Option String` because the zod field
`z.string().url().optional().or(z.literal(""))` admits an absent value
(`undefined`), which is distinct from the empty string. -/
structure Provider where
  provider : String
  apiKeyEnvVar : String
  baseUrl : Option String
  models : List Model
deriving DecidableEq, Repr

/-- JSON values, as produced by `JSON.parse`.  Numeric values never occur in
a provider configuration, so a number is kept as its source lexeme; this
avoids modelling floating point, which no behaviour in this component
depends on. -/
inductive Json where
  | null : Json
  | bool : Bool → Json
  | num : String → Json
  | str : String → Json
  | arr : List Json → Json
  | obj : List (String × Json) → Json
deriving Repr

/-- One entry of a zod issue path: an array index or an object key. -/
inductive PathElem where
  | idx : Nat → PathElem
  | key : String → PathElem
deriving DecidableEq, Repr

/-- One field-level validation issue: its path and its message. -/
abbrev FieldError := List PathElem × String

/-! ## JSON.parse -/

/-- JSON insignificant whitespace (RFC 8259: space, tab, line feed, carriage
return). -/
def jsonWs (c : Char) : Bool :=
  c = ' ' || c = '\t' || c = '\n' || c = '\r'

/-- Drop leading JSON whitespace. -/
def skipWs : List Char → List Char
  | c :: cs => if jsonWs c then skipWs cs else c :: cs
  | [] => []

/-- Value of one hexadecimal digit in a `\u` escape. -/
def hexVal (c : Char) : Option Nat :=
  if '0' ≤ c && c ≤ '9' then some (c.toNat - 48)
  else if 'a' ≤ c && c ≤ 'f' then some (c.toNat - 87)
  else if 'A' ≤ c && c ≤ 'F' then some (c.toNat - 55)
  else none

/-- Decode one short escape after a backslash in a JSON string literal. -/
def unescapeChar (c : Char) : Option Char :=
  if c = '"' then some '"'
  else if c = '\\' then some '\\'
  else if c = '/' then some '/'
  else if c = 'b' then some '\x08'
  else if c = 'f' then some '\x0c'
  else if c = 'n' then some '\n'
  else if c = 'r' then some '\r'
  else if c = 't' then some '\t'
  else none

/-- Parse the remainder of a JSON string literal, after its opening quote:
the decoded characters up to the closing quote, and the input after it.
`\uXXXX` escapes denoting surrogate halves are rejected (a character here is
a Unicode scalar value; no configuration datum involves surrogates). -/
def parseStringBody : List Char → Option (List Char × List Char)
  | [] => none
  | c :: rest =>
    if c = '"' then some ([], rest)
    else if c = '\\' then
      match rest with
      | 'u' :: h1 :: h2 :: h3 :: h4 :: rest' =>
        match hexVal h1, hexVal h2, hexVal h3, hexVal h4 with
        | some a, some b, some c2, some d =>
          let n := a * 4096 + b * 256 + c2 * 16 + d
          if 0xd800 ≤ n && n ≤ 0xdfff then none
          else (parseStringBody rest').map (fun p => (Char.ofNat n :: p.1, p.2))
        | _, _, _, _ => none
      | e :: rest' =>
        match unescapeChar e with
        | some c' => (parseStringBody rest').map (fun p => (c' :: p.1, p.2))
        | none => none
      | [] => none
    else if c.toNat < 0x20 then none
    else (parseStringBody rest).map (fun p => (c :: p.1, p.2))

/-- Split off a maximal run of decimal digits. -/
def takeDigits : List Char → List Char × List Char
  | [] => ([], [])
  | c :: cs =>
    if c.isDigit then
      let p := takeDigits cs
      (c :: p.1, p.2)
    else ([], c :: cs)

/-- The integer part of a JSON number: `0`, or a nonzero digit followed by
digits (JSON forbids redundant leading zeros). -/
def parseIntDigits : List Char → Option (List Char × List Char)
  | [] => none
  | c :: cs =>
    if c = '0' then some (['0'], cs)
    else if c.isDigit then
      let p := takeDigits cs
      some (c :: p.1, p.2)
    else none

/-- The optional fraction part of a JSON number. -/
def parseFracPart : List Char → Option (List Char × List Char)
  | '.' :: cs =>
    match takeDigits cs with
    | ([], _) => none
    | (ds, rest) => some ('.' :: ds, rest)
  | cs => some ([], cs)

/-- The optional exponent part of a JSON number. -/
def parseExpPart : List Char → Option (List Char × List Char)
  | e :: cs =>
    if e = 'e' || e = 'E' then
      let p := match cs with
        | '+' :: t => (['+'], t)
        | '-' :: t => (['-'], t)
        | t => (([] : List Char), t)
      match takeDigits p.2 with
      | ([], _) => none
      | (ds, rest) => some (e :: (p.1 ++ ds), rest)
    else some ([], e :: cs)
  | [] => some ([], [])

/-- Lex one JSON number, returning its lexeme. -/
def parseNumber (cs : List Char) : Option (List Char × List Char) :=
  let p := match cs with
    | '-' :: t => (['-'], t)
    | t => (([] : List Char), t)
  match parseIntDigits p.2 with
  | none => none
  | some (ip, cs2) =>
    match parseFracPart cs2 with
    | none => none
    | some (fp, cs3) =>
      match parseExpPart cs3 with
      | none => none
      | some (ep, cs4) => some (p.1 ++ (ip ++ (fp ++ ep)), cs4)

mutual

/-- Parse one JSON value (fuelled recursive descent; the fuel only bounds
recursion depth and every user of the parser supplies enough of it). -/
def parseValue : Nat → List Char → Option (Json × List Char)
  | 0, _ => none
  | fuel + 1, cs =>
    match skipWs cs with
    | [] => none
    | c :: rest =>
      if c = 'n' then
        match rest with
        | 'u' :: 'l' :: 'l' :: r => some (.null, r)
        | _ => none
      else if c = 't' then
        match rest with
        | 'r' :: 'u' :: 'e' :: r => some (.bool true, r)
        | _ => none
      else if c = 'f' then
        match rest with
        | 'a' :: 'l' :: 's' :: 'e' :: r => some (.bool false, r)
        | _ => none
      else if c = '"' then
        (parseStringBody rest).map (fun p => (.str (String.mk p.1), p.2))
      else if c = '[' then
        match skipWs rest with
        | [] => none
        | c2 :: r2 =>
          if c2 = ']' then some (.arr [], r2)
          else (parseElems fuel (c2 :: r2)).map (fun p => (.arr p.1, p.2))
      else if c = '\x7b' then
        match skipWs rest with
        | [] => none
        | c2 :: r2 =>
          if c2 = '\x7d' then some (.obj [], r2)
          else (parseMembers fuel (c2 :: r2)).map (fun p => (.obj p.1, p.2))
      else if c = '-' || c.isDigit then
        (parseNumber (c :: rest)).map (fun p => (.num (String.mk p.1), p.2))
      else none

/-- Parse the elements of a nonempty JSON array, up to and including the
closing bracket. -/
def parseElems : Nat → List Char → Option (List Json × List Char)
  | 0, _ => none
  | fuel + 1, cs =>
    match parseValue fuel cs with
    | none => none
    | some (v, cs2) =>
      match skipWs cs2 with
      | [] => none
      | c :: r =>
        if c = ',' then (parseElems fuel r).map (fun p => (v :: p.1, p.2))
        else if c = ']' then some ([v], r)
        else none

/-- Parse the members of a nonempty JSON object, up to and including the
closing brace. -/
def parseMembers : Nat → List Char → Option (List (String × Json) × List Char)
  | 0, _ => none
  | fuel + 1, cs =>
    match skipWs cs with
    | [] => none
    | c :: rest =>
      if c = '"' then
        match parseStringBody rest with
        | none => none
        | some (k, cs1) =>
          match skipWs cs1 with
          | [] => none
          | c2 :: cs2 =>
            if c2 = ':' then
              match parseValue fuel cs2 with
              | none => none
              | some (v, cs3) =>
                match skipWs cs3 with
                | [] => none
                | c3 :: r =>
                  if c3 = ',' then
                    (parseMembers fuel r).map
                      (fun p => ((String.mk k, v) :: p.1, p.2))
                  else if c3 = '\x7d' then some ([(String.mk k, v)], r)
                  else none
            else none
      else none

end

/-- `JSON.parse`: parse a complete JSON text (trailing whitespace allowed,
anything else after the value is a syntax error).  `none` models the
`SyntaxError` that `JSON.parse` throws.  The nesting depth of a value is
bounded by its length, so the fuel `2 * length + 2` never runs out on a
text this function ought to accept. -/
def parseJson (s : String) : Option Json :=
  match parseValue (2 * s.length + 2) s.data with
  | some (j, rest) => if (skipWs rest).isEmpty then some j else none
  | none => none

/-! ## JSON.stringify -/

/-- How `JSON.stringify` renders one character inside a string literal:
quote, backslash and the five short-escape control characters get two-character
escapes, the remaining control characters get `\u00XX`, and every other
character is emitted literally. -/
def escapeChar (c : Char) : List Char :=
  if c = '"' then ['\\', '"']
  else if c = '\\' then ['\\', '\\']
  else if c = '\x08' then ['\\', 'b']
  else if c = '\x0c' then ['\\', 'f']
  else if c = '\n' then ['\\', 'n']
  else if c = '\r' then ['\\', 'r']
  else if c = '\t' then ['\\', 't']
  else if c.toNat < 0x20 then
    ['\\', 'u', '0', '0', Nat.digitChar (c.toNat / 16), Nat.digitChar (c.toNat % 16)]
  else [c]

/-- A JSON string literal for `s`. -/
def encStr (s : String) : List Char :=
  '"' :: (s.data.flatMap escapeChar ++ ['"'])

mutual

/-- `JSON.stringify` with no spacing argument: single line, no whitespace,
object keys in property order. -/
def encJson : Json → List Char
  | .null => ("null" : String).data
  | .bool b => ((if b then "true" else "false" : String)).data
  | .num s => s.data
  | .str s => encStr s
  | .arr [] => ['[', ']']
  | .arr (x :: xs) => '[' :: (encJson x ++ (encElems xs ++ [']']))
  | .obj [] => ['\x7b', '\x7d']
  | .obj (m :: ms) => '\x7b' :: (encMember m ++ (encMembers ms ++ ['\x7d']))

/-- The later elements of an array: a comma before each. -/
def encElems : List Json → List Char
  | [] => []
  | x :: xs => ',' :: (encJson x ++ encElems xs)

/-- One object member, `"key":value`. -/
def encMember : String × Json → List Char
  | (k, v) => encStr k ++ (':' :: encJson v)

/-- The later members of an object: a comma before each. -/
def encMembers : List (String × Json) → List Char
  | [] => []
  | m :: ms => ',' :: (encMember m ++ encMembers ms)

end

/-- `JSON.stringify` as a `String`-valued function. -/
def stringifyJson (j : Json) : String := String.mk (encJson j)

/-! ## The zod schemas -/

/-- The errors of a validation outcome (none when it succeeded). -/
def errsOf {α : Type} : Except (List FieldError) α → List FieldError
  | .error es => es
  | .ok _ => []

/-- Property access on a parsed JSON object.  When a JSON text repeats a
key, `JSON.parse` keeps the last occurrence, so the rightmost binding wins. -/
def jsonLookup (k : String) : List (String × Json) → Option Json
  | [] => none
  | (k', v) :: rest =>
    match jsonLookup k rest with
    | some v' => some v'
    | none => if k' = k then some v else none

/-- A required nonempty string field, `z.string().min(1, msg)`: absent and
non-string values are type errors; an empty string yields `msg`. -/
def checkString (pfx : List PathElem) (k msg : String)
    (fs : List (String × Json)) : Except (List FieldError) String :=
  match jsonLookup k fs with
  | some (.str s) =>
    if s.length < 1 then .error [(pfx ++ [.key k], msg)] else .ok s
  | some _ => .error [(pfx ++ [.key k], "Invalid type")]
  | none => .error [(pfx ++ [.key k], "Required")]

/-- A required boolean field, `z.boolean()`. -/
def checkBool (pfx : List PathElem) (k : String)
    (fs : List (String × Json)) : Except (List FieldError) Bool :=
  match jsonLookup k fs with
  | some (.bool b) => .ok b
  | some _ => .error [(pfx ++ [.key k], "Invalid type")]
  | none => .error [(pfx ++ [.key k], "Required")]

/-- The syntactic URL check behind `z.string().url("Must be a valid URL.")`
(`new URL` in the reference implementation): a URL begins with a scheme — an
ASCII letter followed by letters, digits, `+`, `-` or `.` — terminated by a
colon.  This scheme-level test separates every base URL this component deals
with; in particular it accepts `https://...` strings and rejects colon-free
text and the empty string. -/
def isSchemeTailValid : List Char → Bool
  | [] => false
  | c :: cs =>
    if c = ':' then true
    else (c.isAlphanum || c = '+' || c = '-' || c = '.') && isSchemeTailValid cs

/-- See `isSchemeTailValid`. -/
def isValidUrl (s : String) : Bool :=
  match s.data with
  | [] => false
  | c :: cs => c.isAlpha && isSchemeTailValid cs

/-- The `baseUrl` field, `z.string().url("Must be a valid URL.").optional()
.or(z.literal(""))`: an absent value passes (`undefined`), a string passes
when it is a well-formed URL (first union branch) or empty (second branch),
and anything else fails the union. -/
def checkBaseUrl (pfx : List PathElem)
    (fs : List (String × Json)) : Except (List FieldError) (Option String) :=
  match jsonLookup "baseUrl" fs with
  | none => .ok none
  | some (.str s) =>
    if isValidUrl s then .ok (some s)
    else if s.length < 1 then .ok (some "")
    else .error [(pfx ++ [.key "baseUrl"], "Must be a valid URL.")]
  | some _ => .error [(pfx ++ [.key "baseUrl"], "Invalid input")]

/-- `ModelSchema.safeParse` at path `pfx`: an object with nonempty `apiName`
and `uiName` strings and a boolean `supportsTools`; all field issues are
collected, in field order. -/
def validateModel (pfx : List PathElem) (j : Json) :
    Except (List FieldError) Model :=
  match j with
  | .obj fs =>
    let ra := checkString pfx "apiName" "API Name is required." fs
    let ru := checkString pfx "uiName" "UI Name is required." fs
    let rt := checkBool pfx "supportsTools" fs
    match ra, ru, rt with
    | .ok a, .ok u, .ok t => .ok ⟨a, u, t⟩
    | _, _, _ => .error (errsOf ra ++ (errsOf ru ++ errsOf rt))
  | _ => .error [(pfx, "Expected object")]

/-- Validate the elements of a `models` array, each at its own index path,
collecting the issues of every invalid element. -/
def collectModels (pfx : List PathElem) (k : Nat) :
    List Json → Except (List FieldError) (List Model)
  | [] => .ok []
  | j :: js =>
    let r := validateModel (pfx ++ [.idx k]) j
    let rs := collectModels pfx (k + 1) js
    match r, rs with
    | .ok m, .ok ms => .ok (m :: ms)
    | _, _ => .error (errsOf r ++ errsOf rs)

/-- The `models` field, `z.array(ModelSchema).min(1, "At least one model is
required.")`. -/
def checkModels (pfx : List PathElem)
    (fs : List (String × Json)) : Except (List FieldError) (List Model) :=
  match jsonLookup "models" fs with
  | none => .error [(pfx ++ [.key "models"], "Required")]
  | some (.arr xs) =>
    if xs.length < 1 then
      .error [(pfx ++ [.key "models"], "At least one model is required.")]
    else collectModels (pfx ++ [.key "models"]) 0 xs
  | some _ => .error [(pfx ++ [.key "models"], "Invalid type")]

/-- `ProviderSchema.safeParse` at path `pfx`. -/
def validateProvider (pfx : List PathElem) (j : Json) :
    Except (List FieldError) Provider :=
  match j with
  | .obj fs =>
    let rp := checkString pfx "provider" "Provider name is required." fs
    let rk := checkString pfx "apiKeyEnvVar" "API Key Env Var is required." fs
    let rb := checkBaseUrl pfx fs
    let rm := checkModels pfx fs
    match rp, rk, rb, rm with
    | .ok p, .ok k, .ok b, .ok m => .ok ⟨p, k, b, m⟩
    | _, _, _, _ => .error (errsOf rp ++ (errsOf rk ++ (errsOf rb ++ errsOf rm)))
  | _ => .error [(pfx, "Expected object")]

/-- Validate the elements of the providers array, each at its own index
path, collecting the issues of every invalid element. -/
def collectProviders (pfx : List PathElem) (k : Nat) :
    List Json → Except (List FieldError) (List Provider)
  | [] => .ok []
  | j :: js =>
    let r := validateProvider (pfx ++ [.idx k]) j
    let rs := collectProviders pfx (k + 1) js
    match r, rs with
    | .ok p, .ok ps => .ok (p :: ps)
    | _, _ => .error (errsOf r ++ errsOf rs)

/-- `ProvidersListSchema.safeParse` at path `pfx`: a (possibly empty) array
of providers. -/
def validateProviders (pfx : List PathElem) (j : Json) :
    Except (List FieldError) (List Provider) :=
  match j with
  | .arr xs => collectProviders pfx 0 xs
  | _ => .error [(pfx, "Expected array")]

/-! ## The form state and its operations -/

/-- The JSON value of one model in the form state: `JSON.stringify` and the
zod resolver both see the object keys in the insertion order `apiName`,
`uiName`, `supportsTools` of the source. -/
def Model.toJson (m : Model) : Json :=
  .obj [("apiName", .str m.apiName), ("uiName", .str m.uiName),
    ("supportsTools", .bool m.supportsTools)]

/-- The JSON value of one provider in the form state, keys in the insertion
order `provider`, `apiKeyEnvVar`, `baseUrl`, `models`; an absent `baseUrl`
(`undefined`) has no key, exactly as `JSON.stringify` drops it. -/
def Provider.toJson (p : Provider) : Json :=
  .obj ([("provider", .str p.provider), ("apiKeyEnvVar", .str p.apiKeyEnvVar)] ++
    ((match p.baseUrl with
      | none => []
      | some u => [("baseUrl", .str u)]) ++
    [("models", .arr (p.models.map Model.toJson))]))

/-- The JSON value of the whole `providers` form state. -/
def stateJson (st : List Provider) : Json :=
  .arr (st.map Provider.toJson)

/-- `form.handleSubmit(onSubmit)`: the zod resolver validates the form
values against `FormSchema` (so every issue path begins with the form field
name `providers`); on success `onSubmit` receives the parsed data and
produces `JSON.stringify(data.providers)`, on failure the field errors are
reported and no output is produced. -/
def submitForm (st : List Provider) : Except (List FieldError) String :=
  match validateProviders [.key "providers"] (stateJson st) with
  | .ok ps => .ok (stringifyJson (stateJson ps))
  | .error es => .error es

/-- The outcome `handleImport` reports through its toasts. -/
inductive ImportResult where
  | emptyInput
  | parseError
  | validationError : List FieldError → ImportResult
  | success : ImportResult
deriving DecidableEq, Repr

/-- The ECMAScript whitespace recognised by `String.prototype.trim` (the
WhiteSpace and LineTerminator productions: tab, LF, VT, FF, CR, space,
NBSP, the Unicode space separators, and the BOM). -/
def jsTrimWs (c : Char) : Bool :=
  c.toNat = 0x20 || c.toNat = 0x9 || c.toNat = 0xa || c.toNat = 0xd ||
  c.toNat = 0xb || c.toNat = 0xc ||
  c.toNat = 0xa0 || c.toNat = 0x1680 ||
  (0x2000 ≤ c.toNat && c.toNat ≤ 0x200a) ||
  c.toNat = 0x2028 || c.toNat = 0x2029 || c.toNat = 0x202f ||
  c.toNat = 0x205f || c.toNat = 0x3000 || c.toNat = 0xfeff

/-- The guard `!importJson.trim()`: the trimmed string is empty — that is,
every character of the input is trim whitespace. -/
def blankInput (s : String) : Bool :=
  s.data.all jsTrimWs

/-- `handleImport`: on blank input report the empty-field toast and stop;
otherwise `JSON.parse` the text (a syntax error becomes the format-error
toast); then `ProvidersListSchema.safeParse` the value (failure becomes the
invalid-structure toast, carrying the zod issues); only on success is the
form state replaced, wholesale, by `form.reset`.  The returned pair is the
reported outcome and the form state after the call. -/
def handleImport (importJson : String) (st : List Provider) :
    ImportResult × List Provider :=
  if blankInput importJson then (.emptyInput, st)
  else
    match parseJson importJson with
    | none => (.parseError, st)
    | some j =>
      match validateProviders [] j with
      | .error es => (.validationError es, st)
      | .ok ps => (.success, ps)

/-- The model appended by the Add Model button and seeded into a new
provider: `{ apiName: "", uiName: "", supportsTools: false }`. -/
def emptyModel : Model := ⟨"", "", false⟩

/-- The provider appended by the Add Provider button: empty strings and one
empty model. -/
def newProvider : Provider := ⟨"", "", some "", [emptyModel]⟩

/-- The Add Provider button: `appendProvider({...})` of `useFieldArray`
appends one entry at the end of the `providers` array. -/
def appendProvider (st : List Provider) : List Provider :=
  st ++ [newProvider]

/-- The per-model trash button: `removeModel(modelIndex)` of the nested
`useFieldArray` deletes that index from the provider's `models` array. -/
def removeModel : List Provider → Nat → Nat → List Provider
  | [], _, _ => []
  | p :: rest, 0, m => { p with models := p.models.eraseIdx m } :: rest
  | p :: rest, Nat.succ n, m => p :: removeModel rest n m

/-- The `defaultValues` the form starts with: one Groq provider with one
model. -/
def defaultProviders : List Provider :=
  [⟨"Groq", "GROQ_API_KEY", some "https://api.groq.com/openai/v1",
    [⟨"llama3-8b-8192", "Llama 3 8B", true⟩]⟩]

/-- The example import text of the specification (also exactly the
serialization of `defaultProviders`). -/
def groqText : String :=
  "[\x7b\"provider\":\"Groq\",\"apiKeyEnvVar\":\"GROQ_API_KEY\",\"baseUrl\":\"https://api.groq.com/openai/v1\",\"models\":[\x7b\"apiName\":\"llama3-8b-8192\",\"uiName\":\"Llama 3 8B\",\"supportsTools\":true\x7d]\x7d]"

/-- The well-formedness of one model: exactly the constraints of
`ModelSchema` on a typed model value. -/
def Model.wfB (m : Model) : Bool :=
  m.apiName.length != 0 && m.uiName.length != 0

/-- The well-formedness of the `baseUrl` field of a typed provider value:
absent, empty, or a well-formed URL. -/
def baseUrlOk : Option String → Bool
  | none => true
  | some u => u.length == 0 || isValidUrl u

/-- The well-formedness of one provider: exactly the constraints of
`ProviderSchema` on a typed provider value. -/
def Provider.wfB (p : Provider) : Bool :=
  p.provider.length != 0 && p.apiKeyEnvVar.length != 0 &&
  baseUrlOk p.baseUrl && p.models.length != 0 && p.models.all Model.wfB

/-- A valid configuration: every provider in the form state passes
`ProviderSchema` (`configWf_iff_validates` below proves this is exactly
successful validation of the serialized state). -/
def configWf (C : List Provider) : Bool :=
  C.all Provider.wfB

/-! ## Elementary lemmas -/

theorem skipWs_not_ws {c : Char} (cs : List Char) (h : jsonWs c = false) :
    skipWs (c :: cs) = c :: cs := by
  simp [skipWs, h]

theorem skipWs_all {p : Char → Bool} :
    ∀ cs : List Char, cs.all p = true → (skipWs cs).all p = true
  | [], _ => rfl
  | c :: cs, h => by
    rw [skipWs]
    rcases List.all_eq_true.mp h c (by simp) |>.symm with _
    by_cases hw : jsonWs c = true
    · simp only [hw, if_true]
      exact skipWs_all cs (by simp_all [List.all_cons])
    · simp only [Bool.not_eq_true] at hw
      simp [hw, h]

theorem skipWs_head_not_ws :
    ∀ (cs : List Char) (c : Char) (r : List Char),
      skipWs cs = c :: r → jsonWs c = false
  | [], c, r, h => by simp [skipWs] at h
  | a :: cs, c, r, h => by
    rw [skipWs] at h
    by_cases hw : jsonWs a = true
    · simp only [hw, if_true] at h
      exact skipWs_head_not_ws cs c r h
    · simp only [Bool.not_eq_true] at hw
      simp only [hw, Bool.false_eq_true, if_false] at h
      cases h
      exact hw

theorem errsOf_mem {α : Type} (r : Except (List FieldError) α) (e : FieldError)
    (h : e ∈ errsOf r) : ∃ es, r = .error es ∧ e ∈ es := by
  cases r with
  | error es => exact ⟨es, rfl, h⟩
  | ok _ => simp [errsOf] at h

theorem removeModel_length :
    ∀ (st : List Provider) (p m : Nat), (removeModel st p m).length = st.length
  | [], _, _ => rfl
  | _ :: rest, 0, m => by simp [removeModel]
  | _ :: rest, Nat.succ n, m => by
    simp [removeModel, removeModel_length rest n m]

theorem removeModel_get :
    ∀ (st : List Provider) (pIdx m : Nat) (h : pIdx < st.length),
      (removeModel st pIdx m).get ⟨pIdx, by rw [removeModel_length]; exact h⟩ =
        { st.get ⟨pIdx, h⟩ with models := (st.get ⟨pIdx, h⟩).models.eraseIdx m }
  | [], pIdx, m, h => by simp at h
  | p :: rest, 0, m, h => by simp [removeModel]
  | p :: rest, Nat.succ n, m, h => by
    simpa [removeModel] using removeModel_get rest n m (Nat.lt_of_succ_lt_succ h)

/-! ## C8, C9, C10, C4 -/

/-- C8: `appendProvider` never fails and appends to the end of the provider
sequence exactly one new provider whose `provider`, `apiKeyEnvVar` and
`baseUrl` fields are the empty string and whose models list contains exactly
one model with `apiName = ""`, `uiName = ""` and `supportsTools = false`;
all pre-existing providers are unchanged. -/
theorem appendProvider_appends_empty_provider (st : List Provider) :
    appendProvider st = st ++ [newProvider] ∧
    (appendProvider st).length = st.length + 1 ∧
    (appendProvider st).take st.length = st ∧
    newProvider.provider = "" ∧
    newProvider.apiKeyEnvVar = "" ∧
    newProvider.baseUrl = some "" ∧
    newProvider.models = [{ apiName := "", uiName := "", supportsTools := false }] :=
  ⟨rfl, by simp [appendProvider], by simp [appendProvider], rfl, rfl, rfl, rfl⟩

/-- C9: configuration-level validation accepts the empty sequence — an empty
top-level array validates successfully, and importing the text `[]` succeeds
(replacing any current state with the empty configuration): the
at-least-one-provider requirement is not enforced by `ProvidersListSchema`. -/
theorem empty_providers_list_valid (st : List Provider) :
    validateProviders [] (.arr []) = .ok [] ∧
    handleImport "[]" st = (.success, []) :=
  ⟨rfl, rfl⟩

/-- C10: when import is requested with blank input (the guard
`!importJson.trim()`), the reported outcome is the distinct empty-input
error — not a parse error and not a validation error — and the state is
unchanged; the definition of `handleImport` returns in this branch before
`JSON.parse` is ever consulted. -/
theorem empty_input_distinct_error (s : String) (st : List Provider)
    (h : blankInput s = true) :
    handleImport s st = (.emptyInput, st) ∧
    ImportResult.emptyInput ≠ ImportResult.parseError ∧
    (∀ es, ImportResult.emptyInput ≠ ImportResult.validationError es) := by
  refine ⟨by simp [handleImport, h], ?_, ?_⟩
  · intro hc
    cases hc
  · intro es hc
    cases hc

/-- Witness for C10 at the concrete empty input. -/
theorem empty_input_distinct_error_witness :
    handleImport "" defaultProviders = (.emptyInput, defaultProviders) ∧
    ImportResult.emptyInput ≠ ImportResult.parseError ∧
    (∀ es, ImportResult.emptyInput ≠ ImportResult.validationError es) :=
  empty_input_distinct_error "" defaultProviders (by decide)

/-- C4 fails as stated: the whitespace text `" "` is not syntactically valid
JSON, yet `handleImport` reports the empty-input error for it, not the
parse-format error, because the blank-input guard runs first. -/
theorem import_nonjson_counterexample :
    parseJson " " = none ∧
    handleImport " " defaultProviders = (.emptyInput, defaultProviders) ∧
    ImportResult.emptyInput ≠ ImportResult.parseError :=
  ⟨rfl, rfl, by intro hc; cases hc⟩

/-- C4 (amended): for every input text that is not blank (its trimmed form
is nonempty) and is not syntactically valid JSON, `handleImport` reports the
parse error — never a validation error — and leaves the state unaltered. -/
theorem import_nonjson_reports_parse_error (s : String) (st : List Provider)
    (hb : blankInput s = false) (hp : parseJson s = none) :
    handleImport s st = (.parseError, st) := by
  simp [handleImport, hb, hp]

/-- Witness for the amended C4 at the specification's example input. -/
theorem import_nonjson_reports_parse_error_witness :
    handleImport "not json" defaultProviders = (.parseError, defaultProviders) :=
  import_nonjson_reports_parse_error "not json" defaultProviders (by decide) rfl

/-! ## C7 -/

/-- The provider field list of a candidate JSON object whose `baseUrl` is
absent, present, or present-and-empty, with the other three fields held
arbitrary. -/
def candidateFields (pv ak : String) (bu : Option String) (ms : List Json) :
    List (String × Json) :=
  [("provider", .str pv), ("apiKeyEnvVar", .str ak)] ++
    ((match bu with
      | none => []
      | some u => [("baseUrl", .str u)]) ++
    [("models", .arr ms)])

/-- A candidate provider object; see `candidateFields`. -/
def candidate (pv ak : String) (bu : Option String) (ms : List Json) : Json :=
  .obj (candidateFields pv ak bu ms)

/-- The issues of provider validation on an object are exactly the issues of
its four field checks, in field order. -/
theorem errsOf_validateProvider (pfx : List PathElem) (fs : List (String × Json)) :
    errsOf (validateProvider pfx (.obj fs)) =
      errsOf (checkString pfx "provider" "Provider name is required." fs) ++
      (errsOf (checkString pfx "apiKeyEnvVar" "API Key Env Var is required." fs) ++
      (errsOf (checkBaseUrl pfx fs) ++ errsOf (checkModels pfx fs))) := by
  simp only [validateProvider]
  split
  · simp_all [errsOf]
  · simp [errsOf]

/-- Provider validation of an object succeeds exactly when each of its four
field checks succeeds. -/
theorem validateProvider_obj_ok_iff (pfx : List PathElem) (fs : List (String × Json)) :
    (∃ p, validateProvider pfx (.obj fs) = .ok p) ↔
      ((∃ v, checkString pfx "provider" "Provider name is required." fs = .ok v) ∧
       (∃ v, checkString pfx "apiKeyEnvVar" "API Key Env Var is required." fs = .ok v) ∧
       (∃ v, checkBaseUrl pfx fs = .ok v) ∧
       (∃ v, checkModels pfx fs = .ok v)) := by
  simp only [validateProvider]
  constructor
  · rintro ⟨p, hp⟩
    split at hp
    · simp_all
    · cases hp
  · rintro ⟨⟨v1, h1⟩, ⟨v2, h2⟩, ⟨v3, h3⟩, ⟨v4, h4⟩⟩
    rw [h1, h2, h3, h4]
    exact ⟨_, rfl⟩

/-- C7: validation of `baseUrl` is three-valued.  With the other fields held
fixed, a candidate with `baseUrl` absent and one with `baseUrl = ""` are both
accepted by the field check, produce identical validation issues and succeed
or fail together, while a candidate whose `baseUrl` is non-empty text that is
not a well-formed URL (the specification's `"not-a-url"`) fails the field
check and can never validate. -/
theorem baseurl_three_valued (pfx : List PathElem) (pv ak : String) (ms : List Json) :
    checkBaseUrl pfx (candidateFields pv ak none ms) = .ok none ∧
    checkBaseUrl pfx (candidateFields pv ak (some "") ms) = .ok (some "") ∧
    checkBaseUrl pfx (candidateFields pv ak (some "not-a-url") ms) =
      .error [(pfx ++ [.key "baseUrl"], "Must be a valid URL.")] ∧
    errsOf (validateProvider pfx (candidate pv ak none ms)) =
      errsOf (validateProvider pfx (candidate pv ak (some "") ms)) ∧
    ((∃ p, validateProvider pfx (candidate pv ak none ms) = .ok p) ↔
     (∃ p, validateProvider pfx (candidate pv ak (some "") ms) = .ok p)) ∧
    (∀ p, validateProvider pfx (candidate pv ak (some "not-a-url") ms) ≠ .ok p) := by
  refine ⟨rfl, rfl, rfl, ?_, ?_, ?_⟩
  · rw [candidate, candidate, errsOf_validateProvider, errsOf_validateProvider]
    rfl
  · rw [candidate, candidate, validateProvider_obj_ok_iff, validateProvider_obj_ok_iff]
    constructor
    · rintro ⟨h1, h2, _, h4⟩
      exact ⟨h1, h2, ⟨some "", rfl⟩, h4⟩
    · rintro ⟨h1, h2, _, h4⟩
      exact ⟨h1, h2, ⟨none, rfl⟩, h4⟩
  · intro p hp
    have := validateProvider_obj_ok_iff pfx (candidateFields pv ak (some "not-a-url") ms)
      |>.mp ⟨p, hp⟩
    rcases this with ⟨_, _, ⟨v, hv⟩, _⟩
    rw [show checkBaseUrl pfx (candidateFields pv ak (some "not-a-url") ms) =
      .error [(pfx ++ [.key "baseUrl"], "Must be a valid URL.")] from rfl] at hv
    cases hv

/-! ## C5, C6: an invalid element makes the whole submission fail -/

/-- An issue of the head element survives into the issues of the whole
list validation. -/
theorem collectProviders_mem_left (pfx : List PathElem) (k : Nat) (j : Json)
    (js : List Json) (e : FieldError)
    (h : e ∈ errsOf (validateProvider (pfx ++ [.idx k]) j)) :
    e ∈ errsOf (collectProviders pfx k (j :: js)) := by
  simp only [collectProviders]
  split
  · rename_i p ps hp hps
    rw [hp] at h
    simp [errsOf] at h
  · simp only [errsOf, List.mem_append]
    exact Or.inl h

/-- An issue of the tail elements survives into the issues of the whole
list validation. -/
theorem collectProviders_mem_right (pfx : List PathElem) (k : Nat) (j : Json)
    (js : List Json) (e : FieldError)
    (h : e ∈ errsOf (collectProviders pfx (k + 1) js)) :
    e ∈ errsOf (collectProviders pfx k (j :: js)) := by
  simp only [collectProviders]
  split
  · rename_i p ps hp hps
    rw [hps] at h
    simp [errsOf] at h
  · simp only [errsOf, List.mem_append]
    exact Or.inr h

/-- An issue of the element at index `i` survives into the issues of the
whole list validation. -/
theorem collectProviders_mem :
    ∀ (js : List Json) (pfx : List PathElem) (k i : Nat) (h : i < js.length)
      (e : FieldError),
      e ∈ errsOf (validateProvider (pfx ++ [.idx (k + i)]) (js.get ⟨i, h⟩)) →
      e ∈ errsOf (collectProviders pfx k js)
  | [], _, _, i, h, _ => by simp at h
  | j :: js, pfx, k, 0, h, e => fun he =>
    collectProviders_mem_left pfx k j js e (by simpa using he)
  | j :: js, pfx, k, i + 1, h, e => fun he =>
    collectProviders_mem_right pfx k j js e
      (collectProviders_mem js pfx (k + 1) i (Nat.lt_of_succ_lt_succ h) e
        (by rw [Nat.add_right_comm]; simpa using he))

/-- An issue of the provider at index `i` of the form state survives into
the issues of validating the whole state. -/
theorem validateProviders_mem (C : List Provider) (pfx : List PathElem)
    (i : Nat) (h : i < C.length) (e : FieldError)
    (he : e ∈ errsOf (validateProvider (pfx ++ [.idx i]) ((C.get ⟨i, h⟩).toJson))) :
    e ∈ errsOf (validateProviders pfx (stateJson C)) := by
  simp only [validateProviders, stateJson]
  apply collectProviders_mem (C.map Provider.toJson) pfx 0 i (by simpa) e
  simp only [List.get_eq_getElem, List.getElem_map]
  simpa using he

/-- An issue of the appended suffix survives into the issues of the whole
list validation. -/
theorem collectProviders_mem_append (pfx : List PathElem) (e : FieldError) :
    ∀ (js₁ js₂ : List Json) (k : Nat),
      e ∈ errsOf (collectProviders pfx (k + js₁.length) js₂) →
      e ∈ errsOf (collectProviders pfx k (js₁ ++ js₂))
  | [], js₂, k, h => by simpa using h
  | j :: js₁, js₂, k, h => by
    apply collectProviders_mem_right
    apply collectProviders_mem_append pfx e js₁ js₂ (k + 1)
    rw [Nat.add_right_comm]
    simpa [Nat.add_comm, Nat.add_assoc, Nat.add_left_comm] using h

/-- A validation issue of the current state makes `submitForm` fail with an
issue list containing it. -/
theorem submitForm_error_of_mem (st : List Provider) (e : FieldError)
    (h : e ∈ errsOf (validateProviders [.key "providers"] (stateJson st))) :
    ∃ es, submitForm st = .error es ∧ e ∈ es := by
  rcases errsOf_mem _ e h with ⟨es, heq, hme⟩
  exact ⟨es, by simp [submitForm, heq], hme⟩

/-- A provider whose `models` list is empty contributes the
at-least-one-model issue. -/
theorem mem_errs_validateProvider_empty_models (pfx : List PathElem)
    (p : Provider) (hm : p.models = []) :
    (pfx ++ [.key "models"], "At least one model is required.") ∈
      errsOf (validateProvider pfx p.toJson) := by
  rcases p with ⟨pv, ak, bu, ms⟩
  cases hm
  cases bu with
  | none =>
    rw [Provider.toJson, errsOf_validateProvider]
    have hcm : checkModels pfx
        ([("provider", Json.str pv), ("apiKeyEnvVar", Json.str ak)] ++
          ([] ++ [("models", Json.arr (List.map Model.toJson []))])) =
        .error [(pfx ++ [.key "models"], "At least one model is required.")] := rfl
    rw [hcm]
    simp [errsOf]
  | some u =>
    rw [Provider.toJson, errsOf_validateProvider]
    have hcm : checkModels pfx
        ([("provider", Json.str pv), ("apiKeyEnvVar", Json.str ak)] ++
          ([("baseUrl", Json.str u)] ++ [("models", Json.arr (List.map Model.toJson []))])) =
        .error [(pfx ++ [.key "models"], "At least one model is required.")] := rfl
    rw [hcm]
    simp [errsOf]

/-- C5: when a provider has exactly one model, `removeModel` on it is not
blocked — afterwards that provider's `models` list is empty — and a
subsequent submission fails validation, its issue list containing the
at-least-one-model error at that provider's `models` path, so no JSON output
is produced. -/
theorem remove_last_model_then_submit_fails (st : List Provider) (pIdx : Nat)
    (h1 : pIdx < st.length) (h2 : (st.get ⟨pIdx, h1⟩).models.length = 1) :
    (removeModel st pIdx 0).get ⟨pIdx, by rw [removeModel_length]; exact h1⟩ =
      { st.get ⟨pIdx, h1⟩ with models := [] } ∧
    ∃ es, submitForm (removeModel st pIdx 0) = .error es ∧
      ([.key "providers", .idx pIdx, .key "models"],
        "At least one model is required.") ∈ es := by
  have herase : (st.get ⟨pIdx, h1⟩).models.eraseIdx 0 = [] := by
    rcases hms : (st.get ⟨pIdx, h1⟩).models with _ | ⟨m, rest⟩
    · rfl
    · rw [hms] at h2
      simp at h2
      simp [h2]
  have hget := removeModel_get st pIdx 0 h1
  rw [herase] at hget
  refine ⟨hget, ?_⟩
  apply submitForm_error_of_mem
  apply validateProviders_mem (removeModel st pIdx 0) _ pIdx
    (by rw [removeModel_length]; exact h1)
  rw [hget]
  exact mem_errs_validateProvider_empty_models _ _ rfl

/-- Witness for C5 on the default state, whose single provider has a single
model. -/
theorem remove_last_model_then_submit_fails_witness :
    (removeModel defaultProviders 0 0).get ⟨0, by rw [removeModel_length]; decide⟩ =
      { defaultProviders.get ⟨0, by decide⟩ with models := [] } ∧
    ∃ es, submitForm (removeModel defaultProviders 0 0) = .error es ∧
      ([.key "providers", .idx 0, .key "models"],
        "At least one model is required.") ∈ es :=
  remove_last_model_then_submit_fails defaultProviders 0 (by decide) (by decide)

/-- C6: appending a fresh provider and immediately submitting fails —
the new provider's required string fields are empty — with at least one
reported issue located at the appended provider's own fields (here its
`provider` field at index `st.length`), and no JSON output is produced. -/
theorem appendProvider_then_submit_fails (st : List Provider) :
    ∃ es, submitForm (appendProvider st) = .error es ∧
      ([.key "providers", .idx st.length, .key "provider"],
        "Provider name is required.") ∈ es := by
  apply submitForm_error_of_mem
  simp only [validateProviders, stateJson, appendProvider, List.map_append]
  apply collectProviders_mem_append _ _ (st.map Provider.toJson) _ 0
  rw [List.length_map, Nat.zero_add]
  apply collectProviders_mem_left
  have hval : validateProvider ([PathElem.key "providers"] ++ [.idx st.length])
      (Provider.toJson newProvider) =
      .error [([.key "providers", .idx st.length, .key "provider"],
          "Provider name is required."),
        ([.key "providers", .idx st.length, .key "apiKeyEnvVar"],
          "API Key Env Var is required."),
        ([.key "providers", .idx st.length, .key "models", .idx 0, .key "apiName"],
          "API Name is required."),
        ([.key "providers", .idx st.length, .key "models", .idx 0, .key "uiName"],
          "UI Name is required.")] := rfl
  rw [hval]
  simp [errsOf]

/-! ## C2: failed validation leaves the state untouched -/

/-- A character is determined by its code point. -/
theorem char_eq_of_toNat {c : Char} {n : Nat} (h : c.toNat = n) : c = Char.ofNat n := by
  rw [← h, Char.ofNat_toNat]

theorem isDigit_toNat {c : Char} (h : c.isDigit = true) :
    48 ≤ c.toNat ∧ c.toNat ≤ 57 := by
  simp [Char.isDigit] at h
  exact ⟨h.1, h.2⟩

theorem parseValue_blank :
    ∀ (fuel : Nat) (cs : List Char), cs.all jsTrimWs = true → parseValue fuel cs = none
  | 0, cs, h => by simp [parseValue]
  | fuel + 1, cs, h => by
    have hall : (skipWs cs).all jsTrimWs = true := skipWs_all cs h
    rw [parseValue]
    rcases hskip : skipWs cs with _ | ⟨c, r⟩
    · rfl
    · rw [hskip] at hall
      have hc : jsTrimWs c = true := by
        simp only [List.all_cons, Bool.and_eq_true] at hall
        exact hall.1
      have hn : c ≠ 'n' := fun he => by subst he; exact absurd hc (by decide)
      have ht : c ≠ 't' := fun he => by subst he; exact absurd hc (by decide)
      have hf : c ≠ 'f' := fun he => by subst he; exact absurd hc (by decide)
      have hq : c ≠ '"' := fun he => by subst he; exact absurd hc (by decide)
      have hlb : c ≠ '[' := fun he => by subst he; exact absurd hc (by decide)
      have hob : c ≠ '\x7b' := fun he => by subst he; exact absurd hc (by decide)
      have hmi : c ≠ '-' := fun he => by subst he; exact absurd hc (by decide)
      have hdig : c.isDigit = false := by
        by_contra hdc
        simp only [Bool.not_eq_false] at hdc
        obtain ⟨d1, d2⟩ := isDigit_toNat hdc
        have hc' := hc
        simp only [jsTrimWs, Bool.or_eq_true, decide_eq_true_eq, Bool.and_eq_true] at hc'
        omega
      split <;> simp_all

/-- Blank input can never parse: `JSON.parse` rejects a text consisting only
of trim whitespace (the characters beyond the four JSON whitespace
characters cannot begin any JSON value). -/
theorem parseJson_blank (s : String) (h : blankInput s = true) : parseJson s = none := by
  have hp := parseValue_blank (2 * s.length + 2) s.data (by simpa [blankInput] using h)
  simp [parseJson, hp]

/-- C2: `handleImport` is atomic with respect to validation failure — for
every pre-call state and every input text that parses as JSON but fails
configuration validation, the state after the call is the state before the
call, and the reported outcome carries the field errors instead of replacing
the state. -/
theorem import_validation_failure_atomic (s : String) (st : List Provider)
    (j : Json) (es : List FieldError)
    (hp : parseJson s = some j) (hv : validateProviders [] j = .error es) :
    handleImport s st = (.validationError es, st) := by
  have hb : blankInput s = false := by
    by_contra hbc
    simp only [Bool.not_eq_false] at hbc
    rw [parseJson_blank s hbc] at hp
    cases hp
  simp [handleImport, hb, hp, hv]

/-- Witness for C2: a JSON array whose element is not an object fails
validation and leaves the default state in place. -/
theorem import_validation_failure_atomic_witness :
    handleImport "[0]" defaultProviders =
      (.validationError [([.idx 0], "Expected object")], defaultProviders) :=
  import_validation_failure_atomic "[0]" defaultProviders (.arr [.num "0"])
    [([.idx 0], "Expected object")] rfl rfl

/-! ## Validation of a serialized state succeeds exactly on well-formed states -/

theorem checkString_ok (pfx : List PathElem) (k msg : String)
    (fs : List (String × Json)) (s : String)
    (hl : jsonLookup k fs = some (.str s)) (hs : s.length ≠ 0) :
    checkString pfx k msg fs = .ok s := by
  simp only [checkString, hl]
  rw [if_neg (by omega)]

theorem checkBool_ok (pfx : List PathElem) (k : String)
    (fs : List (String × Json)) (b : Bool)
    (hl : jsonLookup k fs = some (.bool b)) :
    checkBool pfx k fs = .ok b := by
  simp only [checkBool, hl]

theorem string_empty_of_length (s : String) (h : s.length = 0) : s = "" := by
  cases s with
  | mk d =>
    cases d with
    | nil => rfl
    | cons a t => simp [String.length] at h

theorem checkBaseUrl_ok_some (pfx : List PathElem) (fs : List (String × Json))
    (u : String) (hl : jsonLookup "baseUrl" fs = some (.str u))
    (hu : baseUrlOk (some u) = true) : checkBaseUrl pfx fs = .ok (some u) := by
  simp only [checkBaseUrl, hl]
  simp only [baseUrlOk, Bool.or_eq_true, beq_iff_eq] at hu
  rcases hu with h0 | hurl
  · have he : u = "" := string_empty_of_length u h0
    subst he
    rfl
  · simp [hurl]

theorem validateModel_toJson (pfx : List PathElem) (m : Model) (h : m.wfB = true) :
    validateModel pfx (Model.toJson m) = .ok m := by
  simp only [Model.wfB, Bool.and_eq_true, bne_iff_ne, ne_eq] at h
  simp only [Model.toJson, validateModel]
  rw [checkString_ok pfx "apiName" "API Name is required."
      [("apiName", Json.str m.apiName), ("uiName", Json.str m.uiName),
        ("supportsTools", Json.bool m.supportsTools)] m.apiName rfl h.1,
    checkString_ok pfx "uiName" "UI Name is required."
      [("apiName", Json.str m.apiName), ("uiName", Json.str m.uiName),
        ("supportsTools", Json.bool m.supportsTools)] m.uiName rfl h.2,
    checkBool_ok pfx "supportsTools"
      [("apiName", Json.str m.apiName), ("uiName", Json.str m.uiName),
        ("supportsTools", Json.bool m.supportsTools)] m.supportsTools rfl]

theorem collectModels_toJson (pfx : List PathElem) :
    ∀ (l : List Model) (k : Nat), (∀ m ∈ l, m.wfB = true) →
      collectModels pfx k (l.map Model.toJson) = .ok l
  | [], _, _ => rfl
  | m :: l, k, h => by
    simp only [List.map_cons, collectModels]
    rw [validateModel_toJson _ m (h m (by simp)),
      collectModels_toJson pfx l (k + 1) (fun x hx => h x (by simp [hx]))]

theorem checkModels_ok (pfx : List PathElem) (fs : List (String × Json))
    (ms : List Model)
    (hl : jsonLookup "models" fs = some (.arr (ms.map Model.toJson)))
    (hne : ms.length ≠ 0) (hwf : ∀ m ∈ ms, m.wfB = true) :
    checkModels pfx fs = .ok ms := by
  simp only [checkModels, hl]
  rw [if_neg (by rw [List.length_map]; omega)]
  exact collectModels_toJson _ ms 0 hwf

theorem validateProvider_toJson (pfx : List PathElem) (p : Provider)
    (h : p.wfB = true) : validateProvider pfx (Provider.toJson p) = .ok p := by
  rcases p with ⟨pv, ak, bu, ms⟩
  simp only [Provider.wfB, Bool.and_eq_true, bne_iff_ne, ne_eq,
    List.all_eq_true] at h
  obtain ⟨⟨⟨⟨hpv, hak⟩, hbu⟩, hms⟩, hall⟩ := h
  cases bu with
  | none =>
    have l1 : jsonLookup "provider"
        ([("provider", Json.str pv), ("apiKeyEnvVar", Json.str ak)] ++
          ([] ++ [("models", Json.arr (List.map Model.toJson ms))])) =
        some (Json.str pv) := rfl
    have l2 : jsonLookup "apiKeyEnvVar"
        ([("provider", Json.str pv), ("apiKeyEnvVar", Json.str ak)] ++
          ([] ++ [("models", Json.arr (List.map Model.toJson ms))])) =
        some (Json.str ak) := rfl
    have l3 : checkBaseUrl pfx
        ([("provider", Json.str pv), ("apiKeyEnvVar", Json.str ak)] ++
          ([] ++ [("models", Json.arr (List.map Model.toJson ms))])) =
        .ok none := rfl
    have l4 : jsonLookup "models"
        ([("provider", Json.str pv), ("apiKeyEnvVar", Json.str ak)] ++
          ([] ++ [("models", Json.arr (List.map Model.toJson ms))])) =
        some (Json.arr (List.map Model.toJson ms)) := rfl
    simp only [Provider.toJson, validateProvider]
    rw [checkString_ok pfx "provider" "Provider name is required." _ pv l1 hpv,
      checkString_ok pfx "apiKeyEnvVar" "API Key Env Var is required." _ ak l2 hak,
      l3, checkModels_ok pfx _ ms l4 hms (fun m hm => hall m hm)]
  | some u =>
    have l1 : jsonLookup "provider"
        ([("provider", Json.str pv), ("apiKeyEnvVar", Json.str ak)] ++
          ([("baseUrl", Json.str u)] ++
            [("models", Json.arr (List.map Model.toJson ms))])) =
        some (Json.str pv) := rfl
    have l2 : jsonLookup "apiKeyEnvVar"
        ([("provider", Json.str pv), ("apiKeyEnvVar", Json.str ak)] ++
          ([("baseUrl", Json.str u)] ++
            [("models", Json.arr (List.map Model.toJson ms))])) =
        some (Json.str ak) := rfl
    have l3 : jsonLookup "baseUrl"
        ([("provider", Json.str pv), ("apiKeyEnvVar", Json.str ak)] ++
          ([("baseUrl", Json.str u)] ++
            [("models", Json.arr (List.map Model.toJson ms))])) =
        some (Json.str u) := rfl
    have l4 : jsonLookup "models"
        ([("provider", Json.str pv), ("apiKeyEnvVar", Json.str ak)] ++
          ([("baseUrl", Json.str u)] ++
            [("models", Json.arr (List.map Model.toJson ms))])) =
        some (Json.arr (List.map Model.toJson ms)) := rfl
    simp only [Provider.toJson, validateProvider]
    rw [checkString_ok pfx "provider" "Provider name is required." _ pv l1 hpv,
      checkString_ok pfx "apiKeyEnvVar" "API Key Env Var is required." _ ak l2 hak,
      checkBaseUrl_ok_some pfx _ u l3 hbu,
      checkModels_ok pfx _ ms l4 hms (fun m hm => hall m hm)]

theorem collectProviders_toJson :
    ∀ (C : List Provider) (pfx : List PathElem) (k : Nat),
      (∀ p ∈ C, p.wfB = true) →
      collectProviders pfx k (C.map Provider.toJson) = .ok C
  | [], _, _, _ => rfl
  | p :: C, pfx, k, h => by
    simp only [List.map_cons, collectProviders]
    rw [validateProvider_toJson _ p (h p (by simp)),
      collectProviders_toJson C pfx (k + 1) (fun x hx => h x (by simp [hx]))]

/-- A well-formed state validates, at any path prefix, to exactly itself. -/
theorem validateProviders_toJson (C : List Provider) (pfx : List PathElem)
    (h : configWf C = true) : validateProviders pfx (stateJson C) = .ok C := by
  simp only [validateProviders, stateJson]
  exact collectProviders_toJson C pfx 0
    (by simpa [configWf, List.all_eq_true] using h)

theorem checkString_ok_inv (pfx : List PathElem) (k msg : String)
    (fs : List (String × Json)) (s v : String)
    (hl : jsonLookup k fs = some (.str s)) (h : checkString pfx k msg fs = .ok v) :
    s.length ≠ 0 ∧ v = s := by
  simp only [checkString, hl] at h
  split at h
  · cases h
  · rename_i hlt
    cases h
    exact ⟨by omega, rfl⟩

theorem validateModel_toJson_ok (pfx : List PathElem) (m q : Model)
    (h : validateModel pfx (Model.toJson m) = .ok q) : m.wfB = true ∧ q = m := by
  have l1 : jsonLookup "apiName"
      [("apiName", Json.str m.apiName), ("uiName", Json.str m.uiName),
        ("supportsTools", Json.bool m.supportsTools)] =
      some (Json.str m.apiName) := rfl
  have l2 : jsonLookup "uiName"
      [("apiName", Json.str m.apiName), ("uiName", Json.str m.uiName),
        ("supportsTools", Json.bool m.supportsTools)] =
      some (Json.str m.uiName) := rfl
  simp only [Model.toJson, validateModel] at h
  split at h
  · rename_i a u t ha hu ht
    cases h
    obtain ⟨h1, e1⟩ := checkString_ok_inv pfx "apiName" _ _ m.apiName a l1 ha
    obtain ⟨h2, e2⟩ := checkString_ok_inv pfx "uiName" _ _ m.uiName u l2 hu
    have l3 : jsonLookup "supportsTools"
        [("apiName", Json.str m.apiName), ("uiName", Json.str m.uiName),
          ("supportsTools", Json.bool m.supportsTools)] =
        some (Json.bool m.supportsTools) := rfl
    have e3 : t = m.supportsTools := by
      rw [checkBool_ok pfx "supportsTools" _ m.supportsTools l3] at ht
      cases ht
      rfl
    subst e1 e2 e3
    exact ⟨by simp [Model.wfB, bne_iff_ne, h1, h2], rfl⟩
  · cases h

theorem collectModels_toJson_ok (pfx : List PathElem) :
    ∀ (l : List Model) (k : Nat) (qs : List Model),
      collectModels pfx k (l.map Model.toJson) = .ok qs →
      (∀ m ∈ l, m.wfB = true) ∧ qs = l
  | [], k, qs, h => by
    simp only [List.map_nil, collectModels] at h
    cases h
    exact ⟨by simp, rfl⟩
  | m :: l, k, qs, h => by
    simp only [List.map_cons, collectModels] at h
    split at h
    · rename_i m' ms' hm hms
      cases h
      obtain ⟨hwf, hq⟩ := validateModel_toJson_ok _ m m' hm
      obtain ⟨hall, hqs⟩ := collectModels_toJson_ok pfx l (k + 1) ms' hms
      subst hq hqs
      refine ⟨?_, rfl⟩
      intro x hx
      rcases List.mem_cons.mp hx with hx | hx
      · subst hx; exact hwf
      · exact hall x hx
    · cases h

theorem checkBaseUrl_ok_inv (pfx : List PathElem) (fs : List (String × Json))
    (u : String) (v : Option String)
    (hl : jsonLookup "baseUrl" fs = some (.str u))
    (h : checkBaseUrl pfx fs = .ok v) :
    baseUrlOk (some u) = true ∧ v = some u := by
  simp only [checkBaseUrl, hl] at h
  split at h
  · rename_i hurl
    cases h
    exact ⟨by simp [baseUrlOk, hurl], rfl⟩
  · split at h
    · rename_i hlen
      have he : u = "" := string_empty_of_length u (by omega)
      cases h
      subst he
      exact ⟨by simp [baseUrlOk], rfl⟩
    · cases h

theorem checkModels_toJson_ok (pfx : List PathElem) (fs : List (String × Json))
    (ms : List Model) (qs : List Model)
    (hl : jsonLookup "models" fs = some (.arr (ms.map Model.toJson)))
    (h : checkModels pfx fs = .ok qs) :
    ms.length ≠ 0 ∧ (∀ m ∈ ms, m.wfB = true) ∧ qs = ms := by
  simp only [checkModels, hl] at h
  split at h
  · cases h
  · rename_i hlen
    rw [List.length_map] at hlen
    obtain ⟨hall, hqs⟩ := collectModels_toJson_ok _ ms 0 qs h
    exact ⟨by omega, hall, hqs⟩

theorem validateProvider_toJson_ok (pfx : List PathElem) (p q : Provider)
    (h : validateProvider pfx (Provider.toJson p) = .ok q) :
    p.wfB = true ∧ q = p := by
  rcases p with ⟨pv, ak, bu, ms⟩
  cases bu with
  | none =>
    have l1 : jsonLookup "provider"
        ([("provider", Json.str pv), ("apiKeyEnvVar", Json.str ak)] ++
          ([] ++ [("models", Json.arr (List.map Model.toJson ms))])) =
        some (Json.str pv) := rfl
    have l2 : jsonLookup "apiKeyEnvVar"
        ([("provider", Json.str pv), ("apiKeyEnvVar", Json.str ak)] ++
          ([] ++ [("models", Json.arr (List.map Model.toJson ms))])) =
        some (Json.str ak) := rfl
    have l3 : checkBaseUrl pfx
        ([("provider", Json.str pv), ("apiKeyEnvVar", Json.str ak)] ++
          ([] ++ [("models", Json.arr (List.map Model.toJson ms))])) =
        .ok none := rfl
    have l4 : jsonLookup "models"
        ([("provider", Json.str pv), ("apiKeyEnvVar", Json.str ak)] ++
          ([] ++ [("models", Json.arr (List.map Model.toJson ms))])) =
        some (Json.arr (List.map Model.toJson ms)) := rfl
    simp only [Provider.toJson, validateProvider] at h
    split at h
    · rename_i a b c d ha hb hc hd
      cases h
      obtain ⟨h1, e1⟩ := checkString_ok_inv pfx "provider" _ _ pv a l1 ha
      obtain ⟨h2, e2⟩ := checkString_ok_inv pfx "apiKeyEnvVar" _ _ ak b l2 hb
      have e3 : c = none := by
        rw [l3] at hc
        cases hc
        rfl
      obtain ⟨h4, hall, e4⟩ := checkModels_toJson_ok pfx _ ms d l4 hd
      subst e1 e2 e3 e4
      refine ⟨?_, rfl⟩
      simp [Provider.wfB, bne_iff_ne, h1, h2, baseUrlOk, h4, List.all_eq_true]
      exact fun m hm => hall m hm
    · cases h
  | some u =>
    have l2 : jsonLookup "apiKeyEnvVar"
        ([("provider", Json.str pv), ("apiKeyEnvVar", Json.str ak)] ++
          ([("baseUrl", Json.str u)] ++
            [("models", Json.arr (List.map Model.toJson ms))])) =
        some (Json.str ak) := rfl
    have l1 : jsonLookup "provider"
        ([("provider", Json.str pv), ("apiKeyEnvVar", Json.str ak)] ++
          ([("baseUrl", Json.str u)] ++
            [("models", Json.arr (List.map Model.toJson ms))])) =
        some (Json.str pv) := rfl
    have l3 : jsonLookup "baseUrl"
        ([("provider", Json.str pv), ("apiKeyEnvVar", Json.str ak)] ++
          ([("baseUrl", Json.str u)] ++
            [("models", Json.arr (List.map Model.toJson ms))])) =
        some (Json.str u) := rfl
    have l4 : jsonLookup "models"
        ([("provider", Json.str pv), ("apiKeyEnvVar", Json.str ak)] ++
          ([("baseUrl", Json.str u)] ++
            [("models", Json.arr (List.map Model.toJson ms))])) =
        some (Json.arr (List.map Model.toJson ms)) := rfl
    simp only [Provider.toJson, validateProvider] at h
    split at h
    · rename_i a b c d ha hb hc hd
      cases h
      obtain ⟨h1, e1⟩ := checkString_ok_inv pfx "provider" _ _ pv a l1 ha
      obtain ⟨h2, e2⟩ := checkString_ok_inv pfx "apiKeyEnvVar" _ _ ak b l2 hb
      obtain ⟨h3, e3⟩ := checkBaseUrl_ok_inv pfx _ u c l3 hc
      obtain ⟨h4, hall, e4⟩ := checkModels_toJson_ok pfx _ ms d l4 hd
      subst e1 e2 e3 e4
      refine ⟨?_, rfl⟩
      simp only [Provider.wfB, Bool.and_eq_true, bne_iff_ne, ne_eq,
        List.all_eq_true]
      exact ⟨⟨⟨⟨h1, h2⟩, h3⟩, h4⟩, fun m hm => hall m hm⟩
    · cases h

theorem collectProviders_toJson_ok :
    ∀ (C : List Provider) (pfx : List PathElem) (k : Nat) (qs : List Provider),
      collectProviders pfx k (C.map Provider.toJson) = .ok qs →
      (∀ p ∈ C, p.wfB = true) ∧ qs = C
  | [], _, _, qs, h => by
    simp only [List.map_nil, collectProviders] at h
    cases h
    exact ⟨by simp, rfl⟩
  | p :: C, pfx, k, qs, h => by
    simp only [List.map_cons, collectProviders] at h
    split at h
    · rename_i p' ps' hp hps
      cases h
      obtain ⟨hwf, hq⟩ := validateProvider_toJson_ok _ p p' hp
      obtain ⟨hall, hqs⟩ := collectProviders_toJson_ok C pfx (k + 1) ps' hps
      subst hq hqs
      refine ⟨?_, rfl⟩
      intro x hx
      rcases List.mem_cons.mp hx with hx | hx
      · subst hx; exact hwf
      · exact hall x hx
    · cases h

/-- `configWf` captures, exactly, successful schema validation of the
serialized form state (at any issue-path prefix); moreover a successful
validation returns the state itself. -/
theorem configWf_iff_validates (C : List Provider) (pfx : List PathElem) :
    configWf C = true ↔ ∃ ps, validateProviders pfx (stateJson C) = .ok ps := by
  constructor
  · intro h
    exact ⟨C, validateProviders_toJson C pfx h⟩
  · rintro ⟨ps, hps⟩
    simp only [validateProviders, stateJson] at hps
    obtain ⟨hwf, _⟩ := collectProviders_toJson_ok C pfx 0 ps hps
    simpa [configWf, List.all_eq_true] using hwf

/-! ## Serialization round trip -/

theorem hexVal_digitChar : ∀ n : Nat, n < 16 → hexVal (Nat.digitChar n) = some n := by
  decide

theorem parseStringBody_escape (c : Char) (t : List Char) :
    parseStringBody (escapeChar c ++ t) =
      (parseStringBody t).map (fun p => (c :: p.1, p.2)) := by
  by_cases h1 : c = '"'
  · subst h1; rfl
  · by_cases h2 : c = '\\'
    · subst h2; rfl
    · by_cases h3 : c = '\x08'
      · subst h3; rfl
      · by_cases h4 : c = '\x0c'
        · subst h4; rfl
        · by_cases h5 : c = '\n'
          · subst h5; rfl
          · by_cases h6 : c = '\r'
            · subst h6; rfl
            · by_cases h7 : c = '\t'
              · subst h7; rfl
              · by_cases h8 : c.toNat < 0x20
                · have he : escapeChar c = ['\\', 'u', '0', '0',
                      Nat.digitChar (c.toNat / 16), Nat.digitChar (c.toNat % 16)] := by
                    simp [escapeChar, h1, h2, h3, h4, h5, h6, h7, h8]
                  rw [he]
                  have hv3 : hexVal (Nat.digitChar (c.toNat / 16)) = some (c.toNat / 16) :=
                    hexVal_digitChar _ (by omega)
                  have hv4 : hexVal (Nat.digitChar (c.toNat % 16)) = some (c.toNat % 16) :=
                    hexVal_digitChar _ (by omega)
                  simp only [List.cons_append, parseStringBody]
                  rw [if_pos trivial]
                  rw [show hexVal '0' = some 0 from rfl, hv3, hv4]
                  dsimp only
                  generalize hS : 0 * 4096 + 0 * 256 + c.toNat / 16 * 16 + c.toNat % 16 = S
                  have hSc : S = c.toNat := by omega
                  subst hSc
                  have hcond : ¬((decide (55296 ≤ c.toNat) && decide (c.toNat ≤ 57343)) = true) := by
                    simp only [Bool.and_eq_true, decide_eq_true_eq]
                    omega
                  rw [if_neg hcond, Char.ofNat_toNat]
                  simp only [List.append_eq, List.nil_append]
                  rw [if_neg (by decide : ¬(('\\' : Char) = '"'))]
                · have he : escapeChar c = [c] := by
                    simp [escapeChar, h1, h2, h3, h4, h5, h6, h7, h8]
                  rw [he]
                  simp only [List.cons_append, List.nil_append]
                  rw [parseStringBody.eq_def]
                  dsimp only
                  rw [if_neg h1, if_neg h2, if_neg h8]

theorem parseStringBody_escList :
    ∀ (l : List Char) (t : List Char),
      parseStringBody (l.flatMap escapeChar ++ t) =
        (parseStringBody t).map (fun p => (l ++ p.1, p.2))
  | [], t => by
    simp only [List.flatMap_nil, List.nil_append]
    cases parseStringBody t <;> simp
  | c :: l, t => by
    rw [List.flatMap_cons, List.append_assoc, parseStringBody_escape,
      parseStringBody_escList l t]
    cases parseStringBody t <;> simp

theorem parseStringBody_enc (s : String) (t : List Char) :
    parseStringBody (s.data.flatMap escapeChar ++ ('"' :: t)) = some (s.data, t) := by
  rw [parseStringBody_escList]
  have hq : parseStringBody ('"' :: t) = some ([], t) := by
    rw [parseStringBody.eq_def]
    simp
  rw [hq]
  simp

/-- The parser consumes exactly the encoding of `j` (at any sufficient fuel),
returning `j` and the rest of the input. -/
def ValRT (b : Nat) (j : Json) : Prop :=
  ∀ (fuel : Nat), b ≤ fuel → ∀ (rest : List Char),
    parseValue fuel (encJson j ++ rest) = some (j, rest)

theorem valRT_mono {b b' : Nat} {j : Json} (h : b ≤ b') (hv : ValRT b j) :
    ValRT b' j :=
  fun fuel hf rest => hv fuel (Nat.le_trans h hf) rest

theorem valRT_str (s : String) : ValRT 1 (.str s) := by
  intro fuel hf rest
  cases fuel with
  | zero => omega
  | succ f =>
    show parseValue (f + 1) (encStr s ++ rest) = _
    rw [show encStr s ++ rest = '"' :: (s.data.flatMap escapeChar ++ ('"' :: rest)) by
      simp [encStr]]
    rw [parseValue, skipWs_not_ws _ (by decide)]
    show (parseStringBody (s.data.flatMap escapeChar ++ ('"' :: rest))).map
        (fun p => (Json.str (String.mk p.1), p.2)) = some (.str s, rest)
    rw [parseStringBody_enc]
    rfl

theorem valRT_bool (b : Bool) : ValRT 1 (.bool b) := by
  intro fuel hf rest
  cases fuel with
  | zero => omega
  | succ f => cases b <;> rfl

theorem parseElems_enc (b : Nat) :
    ∀ (xs : List Json) (x : Json), (∀ z ∈ x :: xs, ValRT b z) →
      ∀ (fuel : Nat), xs.length + b + 1 ≤ fuel → ∀ (rest : List Char),
        parseElems fuel (encJson x ++ (encElems xs ++ (']' :: rest))) =
          some (x :: xs, rest)
  | [], x, hall, fuel, hf, rest => by
    cases fuel with
    | zero => omega
    | succ f =>
      rw [parseElems]
      rw [show encJson x ++ (encElems [] ++ (']' :: rest)) =
          encJson x ++ (']' :: rest) by simp [encElems]]
      rw [hall x (by simp) f (by omega) (']' :: rest)]
      rfl
  | y :: ys, x, hall, fuel, hf, rest => by
    cases fuel with
    | zero => omega
    | succ f =>
      rw [parseElems]
      rw [show encJson x ++ (encElems (y :: ys) ++ (']' :: rest)) =
          encJson x ++ (',' :: (encJson y ++ (encElems ys ++ (']' :: rest)))) by
        simp [encElems]]
      rw [hall x (by simp) f (by omega) _]
      dsimp only
      rw [skipWs_not_ws _ (by decide)]
      dsimp only
      rw [if_pos rfl]
      rw [parseElems_enc b ys y
        (fun z hz => hall z (List.mem_cons_of_mem x hz)) f
        (by simp only [List.length_cons] at hf; omega) rest]
      rfl

theorem parseMembers_enc (b : Nat) :
    ∀ (ms : List (String × Json)) (k : String) (v : Json),
      (∀ kv ∈ (k, v) :: ms, ValRT b kv.2) →
      ∀ (fuel : Nat), ms.length + b + 1 ≤ fuel → ∀ (rest : List Char),
        parseMembers fuel (encMember (k, v) ++ (encMembers ms ++ ('\x7d' :: rest))) =
          some ((k, v) :: ms, rest)
  | [], k, v, hall, fuel, hf, rest => by
    cases fuel with
    | zero => omega
    | succ f =>
      rw [parseMembers]
      rw [show encMember (k, v) ++ (encMembers [] ++ ('\x7d' :: rest)) =
          '"' :: (k.data.flatMap escapeChar ++
            ('"' :: (':' :: (encJson v ++ ('\x7d' :: rest))))) by
        simp [encMember, encMembers, encStr]]
      rw [skipWs_not_ws _ (by decide)]
      dsimp only
      rw [if_pos rfl]
      rw [parseStringBody_enc]
      dsimp only
      rw [skipWs_not_ws _ (by decide)]
      dsimp only
      rw [if_pos rfl]
      rw [hall (k, v) (by simp) f (by omega) ('\x7d' :: rest)]
      rfl
  | (k2, v2) :: ms, k, v, hall, fuel, hf, rest => by
    cases fuel with
    | zero => omega
    | succ f =>
      rw [parseMembers]
      rw [show encMember (k, v) ++ (encMembers ((k2, v2) :: ms) ++ ('\x7d' :: rest)) =
          '"' :: (k.data.flatMap escapeChar ++
            ('"' :: (':' :: (encJson v ++
              (',' :: (encMember (k2, v2) ++ (encMembers ms ++ ('\x7d' :: rest)))))))) by
        simp [encMember, encMembers, encStr]]
      rw [skipWs_not_ws _ (by decide)]
      dsimp only
      rw [if_pos rfl]
      rw [parseStringBody_enc]
      dsimp only
      rw [skipWs_not_ws _ (by decide)]
      dsimp only
      rw [if_pos rfl]
      rw [hall (k, v) (by simp) f (by omega) _]
      dsimp only
      rw [skipWs_not_ws _ (by decide)]
      dsimp only
      rw [if_pos rfl]
      rw [parseMembers_enc b ms k2 v2
        (fun kv hkv => hall kv (List.mem_cons_of_mem (k, v) hkv)) f
        (by simp only [List.length_cons] at hf; omega) rest]
      rfl

theorem valRT_model (m : Model) : ValRT 5 (Model.toJson m) := by
  intro fuel hf rest
  cases fuel with
  | zero => omega
  | succ f =>
    rw [show encJson (Model.toJson m) ++ rest =
        '\x7b' :: (encMember ("apiName", .str m.apiName) ++
          (encMembers [("uiName", .str m.uiName),
            ("supportsTools", .bool m.supportsTools)] ++ ('\x7d' :: rest))) from by
      simp [Model.toJson, encJson]]
    rw [parseValue]
    rw [skipWs_not_ws _ (by decide)]
    dsimp only
    rw [if_neg (by decide), if_neg (by decide), if_neg (by decide),
      if_neg (by decide), if_neg (by decide), if_pos rfl]
    have hshape : encMember ("apiName", Json.str m.apiName) ++
        (encMembers [("uiName", Json.str m.uiName),
          ("supportsTools", Json.bool m.supportsTools)] ++ ('\x7d' :: rest)) =
        '"' :: (("apiName" : String).data.flatMap escapeChar ++
          ('"' :: (':' :: (encJson (Json.str m.apiName) ++
            (encMembers [("uiName", Json.str m.uiName),
              ("supportsTools", Json.bool m.supportsTools)] ++ ('\x7d' :: rest)))))) := by
      simp [encMember, encStr]
    rw [hshape]
    rw [skipWs_not_ws _ (by decide)]
    dsimp only
    rw [if_neg (by decide)]
    rw [← hshape]
    rw [parseMembers_enc 1 _ "apiName" (Json.str m.apiName) ?hall f (by simp; omega) rest]
    case hall =>
      intro kv hkv
      simp only [List.mem_cons, List.not_mem_nil, or_false] at hkv
      rcases hkv with h | h | h
      · exact h ▸ valRT_str m.apiName
      · exact h ▸ valRT_str m.uiName
      · exact h ▸ valRT_bool m.supportsTools
    rfl

theorem valRT_arr_models (l : List Model) :
    ValRT (l.length + 6) (.arr (l.map Model.toJson)) := by
  intro fuel hf rest
  cases fuel with
  | zero => omega
  | succ f =>
    cases l with
    | nil => rfl
    | cons m ml =>
      rw [show encJson (.arr ((m :: ml).map Model.toJson)) ++ rest =
          '[' :: (encJson (Model.toJson m) ++
            (encElems (ml.map Model.toJson) ++ (']' :: rest))) from by
        simp [encJson]]
      rw [parseValue]
      rw [skipWs_not_ws _ (by decide)]
      dsimp only
      rw [if_neg (by decide), if_neg (by decide), if_neg (by decide),
        if_neg (by decide), if_pos rfl]
      have hshape : encJson (Model.toJson m) ++
          (encElems (ml.map Model.toJson) ++ (']' :: rest)) =
          '\x7b' :: (encMember ("apiName", .str m.apiName) ++
            (encMembers [("uiName", .str m.uiName),
              ("supportsTools", .bool m.supportsTools)] ++
              ('\x7d' :: (encElems (ml.map Model.toJson) ++ (']' :: rest))))) := by
        simp [Model.toJson, encJson, encMember, encMembers]
      rw [hshape]
      rw [skipWs_not_ws _ (by decide)]
      dsimp only
      rw [if_neg (by decide)]
      rw [← hshape]
      rw [parseElems_enc 5 (ml.map Model.toJson) (Model.toJson m) ?hall f
        (by simp only [List.length_cons, List.length_map] at hf ⊢; omega) rest]
      case hall =>
        intro z hz
        rcases List.mem_cons.mp hz with h | h
        · exact h ▸ valRT_model m
        · rcases List.mem_map.mp h with ⟨m2, _, hm2⟩
          exact hm2 ▸ valRT_model m2
      rfl

theorem valRT_provider (p : Provider) :
    ValRT (p.models.length + 11) (Provider.toJson p) := by
  intro fuel hf rest
  cases fuel with
  | zero => omega
  | succ f =>
    rcases p with ⟨pv, ak, bu, ms⟩
    cases bu with
    | none =>
      rw [show encJson (Provider.toJson ⟨pv, ak, none, ms⟩) ++ rest =
          '\x7b' :: (encMember ("provider", .str pv) ++
            (encMembers [("apiKeyEnvVar", .str ak),
              ("models", .arr (ms.map Model.toJson))] ++ ('\x7d' :: rest))) from by
        simp [Provider.toJson, encJson]]
      rw [parseValue]
      rw [skipWs_not_ws _ (by decide)]
      dsimp only
      rw [if_neg (by decide), if_neg (by decide), if_neg (by decide),
        if_neg (by decide), if_neg (by decide), if_pos rfl]
      have hshape : encMember ("provider", Json.str pv) ++
          (encMembers [("apiKeyEnvVar", Json.str ak),
            ("models", Json.arr (ms.map Model.toJson))] ++ ('\x7d' :: rest)) =
          '"' :: (("provider" : String).data.flatMap escapeChar ++
            ('"' :: (':' :: (encJson (Json.str pv) ++
              (encMembers [("apiKeyEnvVar", Json.str ak),
                ("models", Json.arr (ms.map Model.toJson))] ++
                ('\x7d' :: rest)))))) := by
        simp [encMember, encStr]
      rw [hshape]
      rw [skipWs_not_ws _ (by decide)]
      dsimp only
      rw [if_neg (by decide)]
      rw [← hshape]
      rw [parseMembers_enc (ms.length + 6) _ "provider" (Json.str pv) ?hall f
        (by simp only [List.length_cons, List.length_nil] at hf ⊢; omega) rest]
      case hall =>
        intro kv hkv
        simp only [List.mem_cons, List.not_mem_nil, or_false] at hkv
        rcases hkv with h | h | h
        · exact h ▸ valRT_mono (by omega) (valRT_str pv)
        · exact h ▸ valRT_mono (by omega) (valRT_str ak)
        · exact h ▸ valRT_arr_models ms
      rfl
    | some u =>
      rw [show encJson (Provider.toJson ⟨pv, ak, some u, ms⟩) ++ rest =
          '\x7b' :: (encMember ("provider", .str pv) ++
            (encMembers [("apiKeyEnvVar", .str ak), ("baseUrl", .str u),
              ("models", .arr (ms.map Model.toJson))] ++ ('\x7d' :: rest))) from by
        simp [Provider.toJson, encJson]]
      rw [parseValue]
      rw [skipWs_not_ws _ (by decide)]
      dsimp only
      rw [if_neg (by decide), if_neg (by decide), if_neg (by decide),
        if_neg (by decide), if_neg (by decide), if_pos rfl]
      have hshape : encMember ("provider", Json.str pv) ++
          (encMembers [("apiKeyEnvVar", Json.str ak), ("baseUrl", Json.str u),
            ("models", Json.arr (ms.map Model.toJson))] ++ ('\x7d' :: rest)) =
          '"' :: (("provider" : String).data.flatMap escapeChar ++
            ('"' :: (':' :: (encJson (Json.str pv) ++
              (encMembers [("apiKeyEnvVar", Json.str ak), ("baseUrl", Json.str u),
                ("models", Json.arr (ms.map Model.toJson))] ++
                ('\x7d' :: rest)))))) := by
        simp [encMember, encStr]
      rw [hshape]
      rw [skipWs_not_ws _ (by decide)]
      dsimp only
      rw [if_neg (by decide)]
      rw [← hshape]
      rw [parseMembers_enc (ms.length + 6) _ "provider" (Json.str pv) ?hall f
        (by simp only [List.length_cons, List.length_nil] at hf ⊢; omega) rest]
      case hall =>
        intro kv hkv
        simp only [List.mem_cons, List.not_mem_nil, or_false] at hkv
        rcases hkv with h | h | h | h
        · exact h ▸ valRT_mono (by omega) (valRT_str pv)
        · exact h ▸ valRT_mono (by omega) (valRT_str ak)
        · exact h ▸ valRT_mono (by omega) (valRT_str u)
        · exact h ▸ valRT_arr_models ms
      rfl

/-- The total number of model entries across the state's providers. -/
def modelCount (C : List Provider) : Nat :=
  (C.map (fun p => p.models.length)).sum

theorem valRT_state (C : List Provider) :
    ValRT (C.length + modelCount C + 12) (stateJson C) := by
  intro fuel hf rest
  cases fuel with
  | zero => omega
  | succ f =>
    cases C with
    | nil => rfl
    | cons p ps =>
      rw [show encJson (stateJson (p :: ps)) ++ rest =
          '[' :: (encJson (Provider.toJson p) ++
            (encElems (ps.map Provider.toJson) ++ (']' :: rest))) from by
        simp [stateJson, encJson]]
      rw [parseValue]
      rw [skipWs_not_ws _ (by decide)]
      dsimp only
      rw [if_neg (by decide), if_neg (by decide), if_neg (by decide),
        if_neg (by decide), if_pos rfl]
      have hobj : Provider.toJson p = .obj (("provider", Json.str p.provider) ::
          (("apiKeyEnvVar", Json.str p.apiKeyEnvVar) ::
            ((match p.baseUrl with
              | none => []
              | some u => [("baseUrl", Json.str u)]) ++
            [("models", Json.arr (p.models.map Model.toJson))]))) := rfl
      have hshape : encJson (Provider.toJson p) ++
          (encElems (ps.map Provider.toJson) ++ (']' :: rest)) =
          '\x7b' :: (encMember ("provider", Json.str p.provider) ++
            ((encMembers (("apiKeyEnvVar", Json.str p.apiKeyEnvVar) ::
              ((match p.baseUrl with
                | none => []
                | some u => [("baseUrl", Json.str u)]) ++
              [("models", Json.arr (p.models.map Model.toJson))]))) ++
              ('\x7d' :: (encElems (ps.map Provider.toJson) ++ (']' :: rest))))) := by
        rw [hobj]
        simp [encJson]
      rw [hshape]
      rw [skipWs_not_ws _ (by decide)]
      dsimp only
      rw [if_neg (by decide)]
      rw [← hshape]
      rw [parseElems_enc (modelCount (p :: ps) + 11) (ps.map Provider.toJson)
        (Provider.toJson p) ?hall f ?hfuel rest]
      case hall =>
        intro z hz
        rcases List.mem_cons.mp hz with h | h
        · refine h ▸ valRT_mono ?_ (valRT_provider p)
          simp [modelCount]
          try omega
        · rcases List.mem_map.mp h with ⟨p2, hp2m, hp2⟩
          refine hp2 ▸ valRT_mono ?_ (valRT_provider p2)
          have hle : p2.models.length ≤ (ps.map (fun q => q.models.length)).sum :=
            List.le_sum_of_mem (List.mem_map_of_mem (fun q => q.models.length) hp2m)
          simp [modelCount]
          try omega
      case hfuel =>
        simp only [List.length_cons, List.length_map] at hf ⊢
        omega
      rfl

theorem len_encStr (s : String) : 2 ≤ (encStr s).length := by
  simp [encStr]

theorem len_encMember (k : String) (v : Json) : 3 ≤ (encMember (k, v)).length := by
  have h := len_encStr k
  simp [encMember]
  omega

theorem len_enc_model (m : Model) : 4 ≤ (encJson (Model.toJson m)).length := by
  rw [show encJson (Model.toJson m) = '\x7b' :: (encMember ("apiName", .str m.apiName) ++
      (encMembers [("uiName", .str m.uiName),
        ("supportsTools", .bool m.supportsTools)] ++ ['\x7d'])) from by
    simp [Model.toJson, encJson]]
  have h := len_encMember "apiName" (Json.str m.apiName)
  simp [encMembers]
  omega

theorem len_encElems_models : ∀ l : List Model,
    l.length ≤ (encElems (l.map Model.toJson)).length
  | [] => by simp [encElems]
  | m :: ml => by
    have h1 := len_enc_model m
    have h2 := len_encElems_models ml
    simp only [List.map_cons, encElems, List.length_cons, List.length_append]
    omega

theorem len_enc_models_arr (l : List Model) :
    l.length + 2 ≤ (encJson (.arr (l.map Model.toJson))).length := by
  cases l with
  | nil => simp [encJson]
  | cons m ml =>
    have h1 := len_enc_model m
    have h2 := len_encElems_models ml
    simp only [List.map_cons, encJson, List.length_cons, List.length_append,
      List.length_singleton]
    omega

theorem len_enc_provider (p : Provider) :
    p.models.length + 14 ≤ (encJson (Provider.toJson p)).length := by
  rcases p with ⟨pv, ak, bu, ms⟩
  have h1 := len_encMember "provider" (Json.str pv)
  have h2 := len_encMember "apiKeyEnvVar" (Json.str ak)
  have h3 := len_encStr ("models" : String)
  have h4 := len_enc_models_arr ms
  have hm : (encMember ("models", Json.arr (ms.map Model.toJson))).length =
      (encStr "models").length + ((encJson (.arr (ms.map Model.toJson))).length + 1) := by
    simp [encMember]
  cases bu with
  | none =>
    rw [show encJson (Provider.toJson ⟨pv, ak, none, ms⟩) =
        '\x7b' :: (encMember ("provider", .str pv) ++
          (encMembers [("apiKeyEnvVar", .str ak),
            ("models", .arr (ms.map Model.toJson))] ++ ['\x7d'])) from by
      simp [Provider.toJson, encJson]]
    simp only [encMembers, List.length_cons, List.length_append,
      List.length_singleton, List.length_nil]
    omega
  | some u =>
    rw [show encJson (Provider.toJson ⟨pv, ak, some u, ms⟩) =
        '\x7b' :: (encMember ("provider", .str pv) ++
          (encMembers [("apiKeyEnvVar", .str ak), ("baseUrl", .str u),
            ("models", .arr (ms.map Model.toJson))] ++ ['\x7d'])) from by
      simp [Provider.toJson, encJson]]
    have h5 := len_encMember "baseUrl" (Json.str u)
    simp only [encMembers, List.length_cons, List.length_append,
      List.length_singleton, List.length_nil]
    omega

theorem modelCount_cons (p : Provider) (ps : List Provider) :
    modelCount (p :: ps) = p.models.length + modelCount ps := by
  simp [modelCount]

theorem len_encElems_providers : ∀ ps : List Provider,
    14 * ps.length + modelCount ps ≤ (encElems (ps.map Provider.toJson)).length
  | [] => by simp [encElems, modelCount]
  | p :: ps => by
    have h1 := len_enc_provider p
    have h2 := len_encElems_providers ps
    rw [modelCount_cons]
    simp only [List.map_cons, encElems, List.length_cons, List.length_append]
    omega

/-- Round trip at the state level: `JSON.parse` of `JSON.stringify` of the
serialized form state recovers exactly the serialized state. -/
theorem parseJson_stringify_state (C : List Provider) :
    parseJson (stringifyJson (stateJson C)) = some (stateJson C) := by
  cases C with
  | nil => rfl
  | cons p ps =>
    have hlen : (p :: ps).length + modelCount (p :: ps) + 12 ≤
        2 * (stringifyJson (stateJson (p :: ps))).length + 2 := by
      have h1 := len_enc_provider p
      have h2 := len_encElems_providers ps
      rw [modelCount_cons]
      rw [show (stringifyJson (stateJson (p :: ps))).length =
          (encJson (stateJson (p :: ps))).length from rfl]
      rw [show encJson (stateJson (p :: ps)) =
          '[' :: (encJson (Provider.toJson p) ++
            (encElems (ps.map Provider.toJson) ++ [']'])) from by
        simp [stateJson, encJson]]
      simp only [List.length_cons, List.length_append, List.length_singleton]
      omega
    have hrt := valRT_state (p :: ps)
      (2 * (stringifyJson (stateJson (p :: ps))).length + 2) hlen []
    rw [List.append_nil] at hrt
    simp only [parseJson]
    rw [show (stringifyJson (stateJson (p :: ps))).data =
        encJson (stateJson (p :: ps)) from rfl]
    rw [hrt]
    rfl

/-! ## C1 and C3 -/

theorem escapeChar_no_newline (c : Char) : '\n' ∉ escapeChar c := by
  have hd : ∀ k : Nat, k < 16 → Nat.digitChar k ≠ '\n' := by decide
  by_cases h1 : c = '"'
  · subst h1; decide
  · by_cases h2 : c = '\\'
    · subst h2; decide
    · by_cases h3 : c = '\x08'
      · subst h3; decide
      · by_cases h4 : c = '\x0c'
        · subst h4; decide
        · by_cases h5 : c = '\n'
          · subst h5; decide
          · by_cases h6 : c = '\r'
            · subst h6; decide
            · by_cases h7 : c = '\t'
              · subst h7; decide
              · by_cases h8 : c.toNat < 0x20
                · rw [show escapeChar c = ['\\', 'u', '0', '0',
                      Nat.digitChar (c.toNat / 16), Nat.digitChar (c.toNat % 16)] from by
                    simp [escapeChar, h1, h2, h3, h4, h5, h6, h7, h8]]
                  intro hm
                  simp only [List.mem_cons, List.not_mem_nil, or_false] at hm
                  rcases hm with h | h | h | h | h | h
                  · cases h
                  · cases h
                  · cases h
                  · cases h
                  · exact hd _ (by omega) h.symm
                  · exact hd _ (by omega) h.symm
                · rw [show escapeChar c = [c] from by
                    simp [escapeChar, h1, h2, h3, h4, h5, h6, h7, h8]]
                  intro hm
                  simp only [List.mem_cons, List.not_mem_nil, or_false] at hm
                  subst hm
                  exact h8 (by decide)

theorem no_nl_append {a : Char} {l1 l2 : List Char} (h1 : a ∉ l1) (h2 : a ∉ l2) :
    a ∉ l1 ++ l2 := fun h => (List.mem_append.mp h).elim h1 h2

theorem no_nl_cons {a c : Char} {l : List Char} (hc : a ≠ c) (h : a ∉ l) :
    a ∉ c :: l := fun hm => (List.mem_cons.mp hm).elim hc h

theorem no_nl_nil {a : Char} : a ∉ ([] : List Char) := List.not_mem_nil a

theorem no_nl_encStr (s : String) : '\n' ∉ encStr s := by
  rw [encStr]
  refine no_nl_cons (by decide) (no_nl_append ?_ (no_nl_cons (by decide) no_nl_nil))
  intro hm
  rcases List.mem_flatMap.mp hm with ⟨c, _, hc⟩
  exact escapeChar_no_newline c hc

theorem no_nl_enc_str (s : String) : '\n' ∉ encJson (.str s) := by
  rw [show encJson (.str s) = encStr s from rfl]
  exact no_nl_encStr s

theorem no_nl_enc_bool (b : Bool) : '\n' ∉ encJson (.bool b) := by
  cases b <;> decide

theorem no_nl_encMember (k : String) (v : Json) (hv : '\n' ∉ encJson v) :
    '\n' ∉ encMember (k, v) := by
  rw [encMember]
  exact no_nl_append (no_nl_encStr k) (no_nl_cons (by decide) hv)

theorem no_nl_encMembers_cons (m : String × Json) (ms : List (String × Json))
    (h1 : '\n' ∉ encMember m) (h2 : '\n' ∉ encMembers ms) :
    '\n' ∉ encMembers (m :: ms) := by
  rw [encMembers]
  exact no_nl_cons (by decide) (no_nl_append h1 h2)

theorem no_nl_enc_model (m : Model) : '\n' ∉ encJson (Model.toJson m) := by
  rw [show encJson (Model.toJson m) = '\x7b' :: (encMember ("apiName", .str m.apiName) ++
      (encMembers [("uiName", .str m.uiName),
        ("supportsTools", .bool m.supportsTools)] ++ ['\x7d'])) from by
    simp [Model.toJson, encJson]]
  refine no_nl_cons (by decide) (no_nl_append
    (no_nl_encMember _ _ (no_nl_enc_str m.apiName)) (no_nl_append ?_
      (no_nl_cons (by decide) no_nl_nil)))
  exact no_nl_encMembers_cons _ _ (no_nl_encMember _ _ (no_nl_enc_str m.uiName))
    (no_nl_encMembers_cons _ _ (no_nl_encMember _ _ (no_nl_enc_bool m.supportsTools))
      no_nl_nil)

theorem no_nl_encElems_models : ∀ l : List Model,
    '\n' ∉ encElems (l.map Model.toJson)
  | [] => no_nl_nil
  | m :: ml => by
    rw [List.map_cons, encElems]
    exact no_nl_cons (by decide)
      (no_nl_append (no_nl_enc_model m) (no_nl_encElems_models ml))

theorem no_nl_enc_models_arr (l : List Model) :
    '\n' ∉ encJson (.arr (l.map Model.toJson)) := by
  cases l with
  | nil => decide
  | cons m ml =>
    rw [List.map_cons, show encJson (.arr (Model.toJson m :: ml.map Model.toJson)) =
        '[' :: (encJson (Model.toJson m) ++
          (encElems (ml.map Model.toJson) ++ [']'])) from rfl]
    exact no_nl_cons (by decide) (no_nl_append (no_nl_enc_model m)
      (no_nl_append (no_nl_encElems_models ml) (no_nl_cons (by decide) no_nl_nil)))

theorem no_nl_enc_provider (p : Provider) : '\n' ∉ encJson (Provider.toJson p) := by
  rcases p with ⟨pv, ak, bu, ms⟩
  cases bu with
  | none =>
    rw [show encJson (Provider.toJson ⟨pv, ak, none, ms⟩) =
        '\x7b' :: (encMember ("provider", .str pv) ++
          (encMembers [("apiKeyEnvVar", .str ak),
            ("models", .arr (ms.map Model.toJson))] ++ ['\x7d'])) from by
      simp [Provider.toJson, encJson]]
    exact no_nl_cons (by decide) (no_nl_append
      (no_nl_encMember _ _ (no_nl_enc_str pv))
      (no_nl_append
        (no_nl_encMembers_cons _ _ (no_nl_encMember _ _ (no_nl_enc_str ak))
          (no_nl_encMembers_cons _ _ (no_nl_encMember _ _ (no_nl_enc_models_arr ms))
            no_nl_nil))
        (no_nl_cons (by decide) no_nl_nil)))
  | some u =>
    rw [show encJson (Provider.toJson ⟨pv, ak, some u, ms⟩) =
        '\x7b' :: (encMember ("provider", .str pv) ++
          (encMembers [("apiKeyEnvVar", .str ak), ("baseUrl", .str u),
            ("models", .arr (ms.map Model.toJson))] ++ ['\x7d'])) from by
      simp [Provider.toJson, encJson]]
    exact no_nl_cons (by decide) (no_nl_append
      (no_nl_encMember _ _ (no_nl_enc_str pv))
      (no_nl_append
        (no_nl_encMembers_cons _ _ (no_nl_encMember _ _ (no_nl_enc_str ak))
          (no_nl_encMembers_cons _ _ (no_nl_encMember _ _ (no_nl_enc_str u))
            (no_nl_encMembers_cons _ _
              (no_nl_encMember _ _ (no_nl_enc_models_arr ms)) no_nl_nil)))
        (no_nl_cons (by decide) no_nl_nil)))

theorem no_nl_encElems_providers : ∀ ps : List Provider,
    '\n' ∉ encElems (ps.map Provider.toJson)
  | [] => no_nl_nil
  | p :: ps => by
    rw [List.map_cons, encElems]
    exact no_nl_cons (by decide)
      (no_nl_append (no_nl_enc_provider p) (no_nl_encElems_providers ps))

/-- The serialized state is a single line: it contains no newline
character. -/
theorem no_nl_stringify_state (C : List Provider) :
    ∀ c ∈ (stringifyJson (stateJson C)).data, c ≠ '\n' := by
  intro c hc he
  subst he
  rw [show (stringifyJson (stateJson C)).data = encJson (stateJson C) from rfl] at hc
  cases C with
  | nil => simp [stateJson, encJson] at hc
  | cons p ps =>
    rw [show encJson (stateJson (p :: ps)) =
        '[' :: (encJson (Provider.toJson p) ++
          (encElems (ps.map Provider.toJson) ++ [']'])) from by
      simp [stateJson, encJson]] at hc
    simp only [List.mem_cons, List.mem_append] at hc
    rcases hc with h | h | h | h
    · cases h
    · exact no_nl_enc_provider p h
    · exact no_nl_encElems_providers ps h
    · simp at h

/-- The serialized state never trims to blank (its first character is the
opening bracket). -/
theorem stringify_state_not_blank (C : List Provider) :
    blankInput (stringifyJson (stateJson C)) = false := by
  rw [blankInput]
  rw [show (stringifyJson (stateJson C)).data = encJson (stateJson C) from rfl]
  cases C with
  | nil => rfl
  | cons p ps =>
    rw [show encJson (stateJson (p :: ps)) =
        '[' :: (encJson (Provider.toJson p) ++
          (encElems (ps.map Provider.toJson) ++ [']'])) from by
      simp [stateJson, encJson]]
    simp [jsTrimWs]

/-- C1: for every valid configuration (every provider passing
`ProviderSchema`), submitting serializes it, and running the import
validation pipeline on that JSON text — parse, then configuration
validation — succeeds and replaces any current state with a configuration
structurally equal to the original. -/
theorem provider_config_roundtrip (C st : List Provider) (h : configWf C = true) :
    submitForm C = .ok (stringifyJson (stateJson C)) ∧
    handleImport (stringifyJson (stateJson C)) st = (.success, C) := by
  refine ⟨?_, ?_⟩
  · rw [submitForm, validateProviders_toJson C _ h]
  · rw [handleImport, stringify_state_not_blank C]
    simp only [Bool.false_eq_true, if_false]
    rw [parseJson_stringify_state C]
    dsimp only
    rw [validateProviders_toJson C _ h]

/-- Witness for C1 at the default Groq configuration. -/
theorem provider_config_roundtrip_witness :
    submitForm defaultProviders =
      .ok (stringifyJson (stateJson defaultProviders)) ∧
    handleImport (stringifyJson (stateJson defaultProviders)) [] =
      (.success, defaultProviders) :=
  provider_config_roundtrip defaultProviders [] (by decide)

set_option maxRecDepth 100000 in
/-- C3: when the current configuration is valid, submission serializes the
providers to the single-line JSON string with the fixed key order of
`Provider.toJson` and `Model.toJson` (`provider`, `apiKeyEnvVar`, `baseUrl`,
`models`; `apiName`, `uiName`, `supportsTools`); in particular, importing
the specification's one-provider Groq text and then submitting returns
exactly that text. -/
theorem submit_serializes_single_line (C : List Provider) (h : configWf C = true) :
    submitForm C = .ok (stringifyJson (stateJson C)) ∧
    (∀ c ∈ (stringifyJson (stateJson C)).data, c ≠ '\n') ∧
    handleImport groqText [] = (.success, defaultProviders) ∧
    submitForm defaultProviders = .ok groqText := by
  refine ⟨?_, no_nl_stringify_state C, ?_, ?_⟩
  · rw [submitForm, validateProviders_toJson C _ h]
  · rfl
  · rfl

/-- Witness for C3 at the default Groq configuration. -/
theorem submit_serializes_single_line_witness :
    submitForm defaultProviders =
      .ok (stringifyJson (stateJson defaultProviders)) ∧
    (∀ c ∈ (stringifyJson (stateJson defaultProviders)).data, c ≠ '\n') ∧
    handleImport groqText [] = (.success, defaultProviders) ∧
    submitForm defaultProviders = .ok groqText :=
  submit_serializes_single_line defaultProviders (by decide)

end ProviderManager
